import Mathlib

/-
Verification of the renovate-config updater (`internal/githubops/githubops.go`
and `main.go`), as a shallow embedding.

The program crawls the repositories of a GitHub organization page by page,
probes each repository for a `renovate.json` file at two candidate paths,
and for each matching repository fetches the file, rewrites the literal
substring `github>MyOrg/` to `github>MyOtherOrg/` with `strings.ReplaceAll`,
publishes the new content as a signed commit through the git CLI, and opens
a pull request.

Strings are embedded as `List Char`.  The external world (GitHub API
responses, the git executor, the filesystem) is embedded as explicit oracle
parameters, and the embedded functions additionally return the list of
external calls they perform, so that statements about "X is never invoked"
become statements about that list.
-/

/-! ## Strings and the rewrite rule (`strings.ReplaceAll`, `strings.Contains`) -/

/-- The literal marker searched for: `github>MyOrg/` (githubops.go:250,257). -/
def marker : List Char := "github>MyOrg/".data

/-- The literal substitution text: `github>MyOtherOrg/` (githubops.go:257). -/
def replacement : List Char := "github>MyOtherOrg/".data

/-- Scanner for Go's `strings.ReplaceAll`: when `skip = 0`, test for an
occurrence of `pat` at the current position and emit `rep` (entering the skip
state for the rest of the matched occurrence) or copy one character; when
`skip > 0`, consume a character already covered by the last match.  This is
the leftmost, non-overlapping replace-all of the Go standard library. -/
def replaceAllAux (pat rep : List Char) : List Char → Nat → List Char
  | [], _ => []
  | c :: rest, 0 =>
    if pat.isPrefixOf (c :: rest) then rep ++ replaceAllAux pat rep rest (pat.length - 1)
    else c :: replaceAllAux pat rep rest 0
  | _ :: rest, k + 1 => replaceAllAux pat rep rest k

/-- Go's `strings.ReplaceAll(s, pat, rep)` on `List Char`. -/
def ReplaceAll (pat rep : List Char) (s : List Char) : List Char :=
  replaceAllAux pat rep s 0

/-- Number of positions of `s` at which `pat` occurs (occurrence count). -/
def countOccs (pat : List Char) : List Char → Nat
  | [] => 0
  | c :: rest => (if pat.isPrefixOf (c :: rest) then 1 else 0) + countOccs pat rest

/-- Go's `strings.Contains(s, pat)` on `List Char`. -/
def containsSub (pat : List Char) : List Char → Bool
  | [] => pat.isEmpty
  | c :: rest => pat.isPrefixOf (c :: rest) || containsSub pat rest

/-- True when `p` and `a` disagree at some position that lies inside both
lists; then `p` cannot occur at the start of `a ++ t`, whatever `t` is. -/
def mismatchWithin : List Char → List Char → Bool
  | _, [] => false
  | [], _ => false
  | a :: as, b :: bs => a != b || mismatchWithin as bs

/-- True when every suffix of `a` has a mismatch with `p` inside both lists:
then no occurrence of `p` can start inside `a`, whatever follows `a`. -/
def allMism (p : List Char) : List Char → Bool
  | [] => true
  | c :: rest => mismatchWithin p (c :: rest) && allMism p rest

/-! ## The per-repository file probe (inner loop of `FindReposWithRenovate`,
githubops.go:101-137) -/

/-- The root candidate path `renovate.json` (githubops.go:104,237). -/
def rootPath : List Char := "renovate.json".data

/-- The nested candidate path `.github/renovate.json` (githubops.go:104). -/
def nestedPath : List Char := ".github/renovate.json".data

/-- The ordered candidate path list of githubops.go:104. -/
def renovatePaths : List (List Char) := [rootPath, nestedPath]

/-- Observable outcome of one `GetContents` call during probing: whether the
error was nil, whether a response was present, its HTTP status, and the
rate-limit fields the code consults (remaining count, and whether the
time until reset is positive). -/
structure ContentsResp where
  errNil : Bool
  respPresent : Bool
  status : Nat
  remaining : Nat
  waitPositive : Bool

/-- The candidate-path loop of githubops.go:105-136 for one repository.
`oracle p a` is the response to attempt number `a` (0 = first try, 1 = the
retry after a rate-limit wait) of `GetContents` at path `p`.  Returns the
trace of `(path, attempt)` calls made, and whether the repository was
recorded as containing the file. -/
def probePaths (oracle : List Char → Nat → ContentsResp) :
    List (List Char) → List (List Char × Nat) × Bool
  | [] => ([], false)
  | p :: rest =>
    if (oracle p 0).errNil then ([(p, 0)], true)
    else if (oracle p 0).respPresent && (oracle p 0).status == 404 then
      ((p, 0) :: (probePaths oracle rest).1, (probePaths oracle rest).2)
    else if (oracle p 0).respPresent && (oracle p 0).remaining == 0 &&
        (oracle p 0).waitPositive then
      if (oracle p 1).errNil then ([(p, 0), (p, 1)], true)
      else ((p, 0) :: (p, 1) :: (probePaths oracle rest).1, (probePaths oracle rest).2)
    else ((p, 0) :: (probePaths oracle rest).1, (probePaths oracle rest).2)

/-! ## The paginated organization crawl (outer loop of
`FindReposWithRenovate`, githubops.go:69-146) -/

/-- One `ListByOrg` page response: whether the call errored, the repositories
on the page (as identifiers), the rate-limit fields consulted by the code,
and the server-provided next-page cursor (0 = no further page). -/
structure PageResp where
  err : Bool
  repos : List Nat
  remaining : Nat
  waitPositive : Bool
  nextPage : Nat

/-- How a crawl ends: normal termination with the collected repositories, an
error return from the page listing, or exhaustion of the finite response
stream of the model. -/
inductive CrawlEnd where
  | finished (repos : List Nat)
  | failed
  | starved
deriving DecidableEq

/-- The page loop of githubops.go:69-143.  `stream` is the sequence of
responses the server gives to successive `ListByOrg` calls, `page` the cursor
requested next, `acc` the repositories collected so far, and `probe r`
whether the per-repository probe records repository `r`.  Returns the list of
page cursors requested (one per `ListByOrg` call) and the crawl's end. -/
def crawlLoop (probe : Nat → Bool) :
    List PageResp → Nat → List Nat → List Nat × CrawlEnd
  | [], _, _ => ([], CrawlEnd.starved)
  | r :: rest, page, acc =>
    if r.err then ([page], CrawlEnd.failed)
    else if r.remaining == 0 && r.waitPositive then
      (page :: (crawlLoop probe rest page acc).1, (crawlLoop probe rest page acc).2)
    else if r.nextPage == 0 then ([page], CrawlEnd.finished (acc ++ r.repos.filter probe))
    else
      (page :: (crawlLoop probe rest r.nextPage (acc ++ r.repos.filter probe)).1,
       (crawlLoop probe rest r.nextPage (acc ++ r.repos.filter probe)).2)

/-- Model of `FindReposWithRenovate`: the crawl assembled from the page loop and the
per-repository probe, started at the zero cursor with nothing collected. -/
def FindReposWithRenovate (contentOracle : Nat → List Char → Nat → ContentsResp)
    (stream : List PageResp) : List Nat × CrawlEnd :=
  crawlLoop (fun repo => (probePaths (contentOracle repo) renovatePaths).2) stream 0 []

/-- A page response on which the code suspends for the rate limit
(githubops.go:90-98): the call succeeded, no calls remain, and the reset
time is in the future. -/
def rateSuspended (r : PageResp) : Bool :=
  !r.err && (r.remaining == 0) && r.waitPositive

/-- Concatenation of the repository lists of a response stream. -/
def pageRepos : List PageResp → List Nat
  | [] => []
  | r :: rest => r.repos ++ pageRepos rest

/-- True when the stream is nonempty and exactly its last response carries
the zero next-page cursor. -/
def lastPageOnly : List PageResp → Bool
  | [] => false
  | [r] => r.nextPage == 0
  | r :: s :: rest => r.nextPage != 0 && lastPageOnly (s :: rest)

/-! ## The per-repository update workflow (`CheckAndUpdateRenovateConfig`,
githubops.go:232-295) -/

/-- Outcome of the `GetContents` + `GetContent` (decode) steps for the config
file: whether the fetch error was nil, whether decoding succeeded, and the
decoded text. -/
structure FetchResult where
  errNil : Bool
  decodeOk : Bool
  text : List Char

/-- The external collaborators of `CheckAndUpdateRenovateConfig`: the content
fetch keyed by path, and whether the commit step, the repository-metadata
fetch and the PR creation succeed. -/
structure UpdateEnv where
  getContents : List Char → FetchResult
  commitErr : Bool
  repoGetOk : Bool
  prCreateOk : Bool

/-- External calls `CheckAndUpdateRenovateConfig` can make. -/
inductive UEvent where
  | fetch (path : List Char)
  | commit (content : List Char)
  | getRepo
  | createPR
deriving DecidableEq

/-- Model of `CheckAndUpdateRenovateConfig` (githubops.go:232-295): fetch
`renovate.json`, decode, test for the marker, rewrite, and unless dry-run
commit, resolve the default branch and open a PR.  Returns whether the
function returned a nil error, and the list of external calls it made. -/
def CheckAndUpdateRenovateConfig (env : UpdateEnv) (dryRun : Bool) : Bool × List UEvent :=
  if !(env.getContents rootPath).errNil then (false, [UEvent.fetch rootPath])
  else if !(env.getContents rootPath).decodeOk then (false, [UEvent.fetch rootPath])
  else if !containsSub marker (env.getContents rootPath).text then
    (true, [UEvent.fetch rootPath])
  else if dryRun then (true, [UEvent.fetch rootPath])
  else if env.commitErr then
    (false, [UEvent.fetch rootPath,
      UEvent.commit (ReplaceAll marker replacement (env.getContents rootPath).text)])
  else if !env.repoGetOk then
    (false, [UEvent.fetch rootPath,
      UEvent.commit (ReplaceAll marker replacement (env.getContents rootPath).text),
      UEvent.getRepo])
  else if !env.prCreateOk then
    (false, [UEvent.fetch rootPath,
      UEvent.commit (ReplaceAll marker replacement (env.getContents rootPath).text),
      UEvent.getRepo, UEvent.createPR])
  else
    (true, [UEvent.fetch rootPath,
      UEvent.commit (ReplaceAll marker replacement (env.getContents rootPath).text),
      UEvent.getRepo, UEvent.createPR])

/-! ## The commit publisher (`createSignedCommit`, githubops.go:149-230) -/

/-- Result of one external git invocation: exit success, the textual `%v` of
the Go error, and the executor's combined output. -/
structure ExecResult where
  ok : Bool
  errText : List Char
  output : List Char

/-- The external effects of `createSignedCommit`: temp-dir creation, the six
git invocations (clone, branch, add, sign-config, commit, push) and the file
write. -/
structure GitEnv where
  mkdirOk : Bool
  mkdirErrText : List Char
  clone : ExecResult
  branch : ExecResult
  writeOk : Bool
  writeErrText : List Char
  add : ExecResult
  signcfg : ExecResult
  commit : ExecResult
  push : ExecResult

/-- What a `createSignedCommit` call leaves behind: the returned error (if
any), whether the temporary workspace was created, and whether it was removed
again before returning (the `defer os.RemoveAll`). -/
structure CommitOutcome where
  err : Option (List Char)
  dirCreated : Bool
  dirRemoved : Bool

/-- The error text `fmt.Errorf("...: %v, output: %s", err, output)` builds for
a failed git step. -/
def execErrMsg (pre : List Char) (r : ExecResult) : List Char :=
  pre ++ r.errText ++ ", output: ".data ++ r.output

/-- Model of `createSignedCommit` (githubops.go:149-230): create a temp workspace,
clone, branch, write `renovate.json`, stage it, configure signing when a key
is given, commit (signed when a key is given) and push.  The first failing
step aborts the call with its error; the deferred `os.RemoveAll` removes the
workspace on every path after its creation. -/
def createSignedCommit (env : GitEnv) (gpgKeyID : List Char) : CommitOutcome :=
  if !env.mkdirOk then
    ⟨some ("error creating temp directory: ".data ++ env.mkdirErrText), false, false⟩
  else if !env.clone.ok then
    ⟨some (execErrMsg "error cloning repository: ".data env.clone), true, true⟩
  else if !env.branch.ok then
    ⟨some (execErrMsg "error creating branch: ".data env.branch), true, true⟩
  else if !env.writeOk then
    ⟨some ("error writing renovate.json: ".data ++ env.writeErrText), true, true⟩
  else if !env.add.ok then
    ⟨some (execErrMsg "error adding file: ".data env.add), true, true⟩
  else if gpgKeyID ≠ [] ∧ env.signcfg.ok = false then
    ⟨some (execErrMsg "error configuring signing key: ".data env.signcfg), true, true⟩
  else if !env.commit.ok then
    ⟨some (execErrMsg "error creating commit: ".data env.commit), true, true⟩
  else if !env.push.ok then
    ⟨some (execErrMsg "error pushing branch: ".data env.push), true, true⟩
  else ⟨none, true, true⟩

/-! ## The driver (`main`, main.go:336-382) -/

/-- The inputs of `main`: whether a token was supplied, the `-repo` flag, and
the outcomes of the external steps (fetching the single repository, the
organization crawl, and `CheckAndUpdateRenovateConfig` per repository —
`checkOk r = true` meaning a nil error for repository `r`). -/
structure MainEnv where
  tokenPresent : Bool
  repoFlag : Option Nat
  getSingleOk : Bool
  findResult : Option (List Nat)
  checkOk : Nat → Bool

/-- Whether the process ends in `log.Fatal` (non-zero exit) or runs to
completion. -/
inductive MainOutcome where
  | fatal
  | completed
deriving DecidableEq

/-- Model of `main` (main.go:336-382): with a `-repo` flag, process that single
repository and `log.Fatalf` on error; otherwise crawl the organization and
process every collected repository, logging per-repository errors and
continuing.  Returns the outcome and the repositories on which
`CheckAndUpdateRenovateConfig` was invoked. -/
def mainRun (env : MainEnv) : MainOutcome × List Nat :=
  if !env.tokenPresent then (MainOutcome.fatal, [])
  else
    match env.repoFlag with
    | some repo =>
      if !env.getSingleOk then (MainOutcome.fatal, [])
      else if env.checkOk repo then (MainOutcome.completed, [repo])
      else (MainOutcome.fatal, [repo])
    | none =>
      match env.findResult with
      | none => (MainOutcome.fatal, [])
      | some repos => (MainOutcome.completed, repos)


/-! ## Concrete fixtures used to instantiate the theorems -/

/-- A successful `GetContents` probe response. -/
def okResp : ContentsResp := ⟨true, true, 200, 50, false⟩

/-- A 404 `GetContents` probe response. -/
def notFoundResp : ContentsResp := ⟨false, true, 404, 50, false⟩

/-- A rate-limit-exhausted `GetContents` probe response with a future reset. -/
def rateResp : ContentsResp := ⟨false, true, 403, 0, true⟩

/-- A failing, non-404, non-rate-limited `GetContents` probe response. -/
def errResp : ContentsResp := ⟨false, true, 500, 50, false⟩

/-- Probe oracle of a repository whose config exists only at the nested path. -/
def oracleNestedOnly : List Char → Nat → ContentsResp :=
  fun p _ => if p = rootPath then notFoundResp else okResp

/-- Probe oracle of a repository whose root-path check is rate-limited and
whose retry fails, while the nested path succeeds. -/
def oracleRateThenFail : List Char → Nat → ContentsResp :=
  fun p a => if p = rootPath then (if a = 0 then rateResp else errResp) else okResp

/-- A git environment in which the clone step fails with diagnostic output. -/
def gitEnvCloneFail : GitEnv :=
  ⟨true, [], ⟨false, "exit status 128".data, "fatal: could not read from remote".data⟩,
   ⟨true, [], []⟩, true, [], ⟨true, [], []⟩, ⟨true, [], []⟩, ⟨true, [], []⟩, ⟨true, [], []⟩⟩

/-! ## Properties of the rewrite rule -/

theorem replaceAllAux_skip (pat rep : List Char) :
    ∀ (k : Nat) (l : List Char), replaceAllAux pat rep l k = replaceAllAux pat rep (List.drop k l) 0 := by
  intro k
  induction k with
  | zero => intro l; rfl
  | succ k ih =>
    intro l
    cases l with
    | nil => rfl
    | cons c rest => simpa [replaceAllAux] using ih rest

theorem ReplaceAll_nil (pat rep : List Char) : ReplaceAll pat rep [] = [] := rfl

theorem ReplaceAll_cons (pat rep : List Char) (c : Char) (rest : List Char) :
    ReplaceAll pat rep (c :: rest) =
      if pat.isPrefixOf (c :: rest) then
        rep ++ ReplaceAll pat rep (List.drop (pat.length - 1) rest)
      else c :: ReplaceAll pat rep rest := by
  by_cases h : pat.isPrefixOf (c :: rest) = true
  · simp only [ReplaceAll, replaceAllAux, h, if_true]
    rw [replaceAllAux_skip]
  · simp only [ReplaceAll, replaceAllAux, h]
    simp [h]

theorem isPrefixOf_eq_false_of_mismatch (p : List Char) :
    ∀ a : List Char, mismatchWithin p a = true → ∀ t, p.isPrefixOf (a ++ t) = false := by
  induction p with
  | nil => intro a h; cases a <;> simp [mismatchWithin] at h
  | cons x xs ih =>
    intro a h t
    cases a with
    | nil => simp [mismatchWithin] at h
    | cons b bs =>
      simp only [mismatchWithin, Bool.or_eq_true, bne_iff_ne] at h
      rcases h with h | h
      · simp [List.cons_append, List.isPrefixOf, h]
      · simp [List.cons_append, List.isPrefixOf, ih bs h t]

theorem countOccs_append_of_allMism (p : List Char) :
    ∀ a : List Char, allMism p a = true → ∀ t, countOccs p (a ++ t) = countOccs p t := by
  intro a
  induction a with
  | nil => intro _ t; rfl
  | cons c rest ih =>
    intro h t
    simp only [allMism, Bool.and_eq_true] at h
    have h1 := isPrefixOf_eq_false_of_mismatch p (c :: rest) h.1 t
    simp only [List.cons_append] at h1 ⊢
    simp [countOccs, h1, ih h.2 t]

theorem isPrefixOf_append_self (p t : List Char) : p.isPrefixOf (p ++ t) = true := by
  induction p with
  | nil => simp [List.isPrefixOf]
  | cons c cs ih => simp [List.isPrefixOf, ih]

theorem append_drop_of_isPrefixOf :
    ∀ (p s : List Char), p.isPrefixOf s = true → s = p ++ s.drop p.length := by
  intro p
  induction p with
  | nil => intro s _; simp
  | cons c cs ih =>
    intro s h
    cases s with
    | nil => simp [List.isPrefixOf] at h
    | cons b bs =>
      simp only [List.isPrefixOf, Bool.and_eq_true, beq_iff_eq] at h
      simp only [List.length_cons, List.drop_succ_cons, List.cons_append, h.1]
      exact congrArg _ (ih bs h.2)

theorem countOccs_self_append (p : List Char) (hne : p ≠ [])
    (hm : allMism p (p.drop 1) = true) (t : List Char) :
    countOccs p (p ++ t) = 1 + countOccs p t := by
  cases p with
  | nil => exact absurd rfl hne
  | cons c cs =>
    have h1 := isPrefixOf_append_self (c :: cs) t
    have h2 := countOccs_append_of_allMism (c :: cs) cs (by simpa [allMism] using hm) t
    simp only [List.cons_append] at h1 ⊢
    simp [countOccs, h1, h2]

theorem nil_isPrefixOf (l : List Char) : List.isPrefixOf [] l = true := by
  simp [List.isPrefixOf]

theorem eq_nil_of_isPrefixOf_nil : ∀ p : List Char, p.isPrefixOf [] = true → p = [] := by
  intro p h
  cases p with
  | nil => rfl
  | cons c cs => simp [List.isPrefixOf] at h

theorem marker_length : marker.length = 13 := by decide

theorem replacement_length : replacement.length = 18 := by decide

theorem marker_suffix_in_rewrite (fuel : Nat) :
    ∀ s : List Char, s.length ≤ fuel → ∀ k : Nat, 1 ≤ k → k ≤ 13 →
      (marker.drop k).isPrefixOf (ReplaceAll marker replacement s) = true →
      (marker.drop k).isPrefixOf s = true := by
  induction fuel with
  | zero =>
    intro s hs k _ _ hpre
    have hnil : s = [] := List.length_eq_zero.mp (Nat.le_zero.mp hs)
    subst hnil
    simpa [ReplaceAll_nil] using hpre
  | succ n ih =>
    intro s hs k h1 h13 hpre
    cases s with
    | nil => simpa [ReplaceAll_nil] using hpre
    | cons c rest =>
      have hrest : rest.length ≤ n := by simp [List.length_cons] at hs; omega
      rw [ReplaceAll_cons] at hpre
      rcases Nat.lt_or_ge k 13 with hk | hk
      · by_cases hm : marker.isPrefixOf (c :: rest) = true
        · exfalso
          rw [if_pos hm] at hpre
          have hmis : mismatchWithin (marker.drop k) replacement = true :=
            (by decide : ∀ k, k < 13 → 1 ≤ k → mismatchWithin (marker.drop k) replacement = true)
              k hk h1
          rw [isPrefixOf_eq_false_of_mismatch (marker.drop k) replacement hmis _] at hpre
          exact Bool.noConfusion hpre
        · rw [if_neg hm] at hpre
          have hlt : k < marker.length := by rw [marker_length]; exact hk
          rw [List.drop_eq_getElem_cons hlt] at hpre ⊢
          simp only [List.isPrefixOf, Bool.and_eq_true] at hpre ⊢
          exact ⟨hpre.1, ih rest hrest (k + 1) (by omega) (by omega) hpre.2⟩
      · have hnil : marker.drop k = ([] : List Char) := by
          have h0 : (marker.drop k).length = 0 := by
            rw [List.length_drop, marker_length]; omega
          exact List.length_eq_zero.mp h0
        rw [hnil]
        exact nil_isPrefixOf _

theorem replacement_suffix_in_rewrite (fuel : Nat) :
    ∀ s : List Char, s.length ≤ fuel → ∀ k : Nat, 1 ≤ k → k ≤ 18 →
      (replacement.drop k).isPrefixOf (ReplaceAll marker replacement s) = true →
      (replacement.drop k).isPrefixOf s = true := by
  induction fuel with
  | zero =>
    intro s hs k _ _ hpre
    have hnil : s = [] := List.length_eq_zero.mp (Nat.le_zero.mp hs)
    subst hnil
    simpa [ReplaceAll_nil] using hpre
  | succ n ih =>
    intro s hs k h1 h18 hpre
    cases s with
    | nil => simpa [ReplaceAll_nil] using hpre
    | cons c rest =>
      have hrest : rest.length ≤ n := by simp [List.length_cons] at hs; omega
      rw [ReplaceAll_cons] at hpre
      rcases Nat.lt_or_ge k 18 with hk | hk
      · by_cases hm : marker.isPrefixOf (c :: rest) = true
        · exfalso
          rw [if_pos hm] at hpre
          have hmis : mismatchWithin (replacement.drop k) replacement = true :=
            (by decide : ∀ k, k < 18 → 1 ≤ k → mismatchWithin (replacement.drop k) replacement = true)
              k hk h1
          rw [isPrefixOf_eq_false_of_mismatch (replacement.drop k) replacement hmis _] at hpre
          exact Bool.noConfusion hpre
        · rw [if_neg hm] at hpre
          have hlt : k < replacement.length := by rw [replacement_length]; exact hk
          rw [List.drop_eq_getElem_cons hlt] at hpre ⊢
          simp only [List.isPrefixOf, Bool.and_eq_true] at hpre ⊢
          exact ⟨hpre.1, ih rest hrest (k + 1) (by omega) (by omega) hpre.2⟩
      · have hnil : replacement.drop k = ([] : List Char) := by
          have h0 : (replacement.drop k).length = 0 := by
            rw [List.length_drop, replacement_length]; omega
          exact List.length_eq_zero.mp h0
        rw [hnil]
        exact nil_isPrefixOf _

theorem replacement_suffix_preserved (j : Nat) :
    ∀ k : Nat, 18 ≤ k + j → 1 ≤ k → ∀ s : List Char,
      (replacement.drop k).isPrefixOf s = true →
      (replacement.drop k).isPrefixOf (ReplaceAll marker replacement s) = true := by
  induction j with
  | zero =>
    intro k hk _ s _
    have hnil : replacement.drop k = ([] : List Char) := by
      have h0 : (replacement.drop k).length = 0 := by
        rw [List.length_drop, replacement_length]; omega
      exact List.length_eq_zero.mp h0
    rw [hnil]
    exact nil_isPrefixOf _
  | succ j ihj =>
    intro k hk h1 s hpre
    rcases Nat.lt_or_ge k 18 with hklt | hkge
    · have hmis : mismatchWithin marker (replacement.drop k) = true :=
        (by decide : ∀ k, k < 18 → 1 ≤ k → mismatchWithin marker (replacement.drop k) = true)
          k hklt h1
      have hnom : marker.isPrefixOf s = false := by
        rw [append_drop_of_isPrefixOf _ s hpre]
        exact isPrefixOf_eq_false_of_mismatch marker _ hmis _
      cases s with
      | nil =>
        exfalso
        have hz := eq_nil_of_isPrefixOf_nil _ hpre
        have := congrArg List.length hz
        rw [List.length_drop, replacement_length] at this
        simp at this
        omega
      | cons b bs =>
        rw [ReplaceAll_cons, if_neg (by simp [hnom])]
        have hlt : k < replacement.length := by rw [replacement_length]; exact hklt
        rw [List.drop_eq_getElem_cons hlt] at hpre ⊢
        simp only [List.isPrefixOf, Bool.and_eq_true] at hpre ⊢
        exact ⟨hpre.1, ihj (k + 1) (by omega) (by omega) bs hpre.2⟩
    · have hnil : replacement.drop k = ([] : List Char) := by
        have h0 : (replacement.drop k).length = 0 := by
          rw [List.length_drop, replacement_length]; omega
        exact List.length_eq_zero.mp h0
      rw [hnil]
      exact nil_isPrefixOf _

theorem cons_isPrefixOf_cons (x : Char) (xs : List Char) (b : Char) (l : List Char) :
    (x :: xs).isPrefixOf (b :: l) = ((x == b) && xs.isPrefixOf l) := rfl

theorem rewrite_no_marker_fuel (fuel : Nat) :
    ∀ s : List Char, s.length ≤ fuel →
      countOccs marker (ReplaceAll marker replacement s) = 0 := by
  induction fuel with
  | zero =>
    intro s hs
    have hnil : s = [] := List.length_eq_zero.mp (Nat.le_zero.mp hs)
    subst hnil
    rfl
  | succ n ih =>
    intro s hs
    cases s with
    | nil => rfl
    | cons c rest =>
      have hrest : rest.length ≤ n := by simp [List.length_cons] at hs; omega
      rw [ReplaceAll_cons]
      by_cases hm : marker.isPrefixOf (c :: rest) = true
      · rw [if_pos hm]
        rw [countOccs_append_of_allMism marker replacement (by decide) _]
        refine ih _ ?_
        have := List.length_drop (marker.length - 1) rest
        omega
      · rw [if_neg hm]
        have hmk : marker = 'g' :: marker.drop 1 := by decide
        have hind : marker.isPrefixOf (c :: ReplaceAll marker replacement rest) = false := by
          cases hx : marker.isPrefixOf (c :: ReplaceAll marker replacement rest) with
          | false => rfl
          | true =>
            exfalso
            rw [hmk] at hx
            simp only [List.isPrefixOf, Bool.and_eq_true] at hx
            have h2 : (marker.drop 1).isPrefixOf rest = true :=
              marker_suffix_in_rewrite n rest hrest 1 (by omega) (by omega) hx.2
            have h3 : marker.isPrefixOf (c :: rest) = true := by
              rw [hmk]
              simp only [List.isPrefixOf, Bool.and_eq_true]
              exact ⟨hx.1, h2⟩
            exact hm h3
        simp [countOccs, hind, ih rest hrest]

theorem rewrite_counts_fuel (fuel : Nat) :
    ∀ s : List Char, s.length ≤ fuel →
      countOccs replacement (ReplaceAll marker replacement s) =
        countOccs marker s + countOccs replacement s := by
  induction fuel with
  | zero =>
    intro s hs
    have hnil : s = [] := List.length_eq_zero.mp (Nat.le_zero.mp hs)
    subst hnil
    rfl
  | succ n ih =>
    intro s hs
    cases s with
    | nil => rfl
    | cons c rest =>
      have hrest : rest.length ≤ n := by simp [List.length_cons] at hs; omega
      by_cases hm : marker.isPrefixOf (c :: rest) = true
      · rw [ReplaceAll_cons, if_pos hm]
        have hdec : (c :: rest) = marker ++ (c :: rest).drop 13 := by
          have := append_drop_of_isPrefixOf marker (c :: rest) hm
          rw [marker_length] at this
          exact this
        have hdrop : (c :: rest).drop 13 = rest.drop 12 := by
          simp [List.drop_succ_cons]
        have h12 : marker.length - 1 = 12 := by decide
        rw [countOccs_self_append replacement (by decide) (by decide) _]
        conv_rhs => rw [hdec]
        rw [countOccs_self_append marker (by decide) (by decide) _]
        rw [countOccs_append_of_allMism replacement marker (by decide) _]
        rw [hdrop, h12]
        have hlen : (rest.drop 12).length ≤ n := by
          have := List.length_drop 12 rest
          omega
        rw [ih (rest.drop 12) hlen]
        omega
      · rw [ReplaceAll_cons, if_neg hm]
        have hrep : replacement = 'g' :: replacement.drop 1 := by decide
        have hEq : (replacement.drop 1).isPrefixOf (ReplaceAll marker replacement rest) =
            (replacement.drop 1).isPrefixOf rest := by
          cases hx : (replacement.drop 1).isPrefixOf rest with
          | true =>
            exact replacement_suffix_preserved 17 1 (by omega) (by omega) rest hx
          | false =>
            cases hy : (replacement.drop 1).isPrefixOf (ReplaceAll marker replacement rest) with
            | false => rfl
            | true =>
              exfalso
              have := replacement_suffix_in_rewrite n rest hrest 1 (by omega) (by omega) hy
              rw [hx] at this
              exact Bool.noConfusion this
        have hm0 : marker.isPrefixOf (c :: rest) = false := by
          revert hm
          cases marker.isPrefixOf (c :: rest) <;> simp
        have hih := ih rest hrest
        set R := ReplaceAll marker replacement rest with hR
        have hInd : replacement.isPrefixOf (c :: R) = replacement.isPrefixOf (c :: rest) := by
          rw [hrep, cons_isPrefixOf_cons, cons_isPrefixOf_cons, hEq]
        simp only [countOccs, hInd, hih, hm0]
        by_cases hI : replacement.isPrefixOf (c :: rest) = true
        · simp [hI]
          omega
        · have hI0 : replacement.isPrefixOf (c :: rest) = false := by
            revert hI
            cases replacement.isPrefixOf (c :: rest) <;> simp
          simp [hI0]

theorem ReplaceAll_marker_count (s : List Char) :
    countOccs marker (ReplaceAll marker replacement s) = 0 :=
  rewrite_no_marker_fuel s.length s (Nat.le_refl _)

theorem ReplaceAll_replacement_count (s : List Char) :
    countOccs replacement (ReplaceAll marker replacement s) =
      countOccs marker s + countOccs replacement s :=
  rewrite_counts_fuel s.length s (Nat.le_refl _)

/-! ## Claims about the rewrite rule -/

/-- C1 (counterexample): the claim states that any string with exactly three
occurrences of `github>MyOrg/` rewrites to a string with exactly three
occurrences of `github>MyOtherOrg/`.  This fails when the input already
contains the replacement text: the string below has exactly three marker
occurrences, yet its rewrite has four occurrences of `github>MyOtherOrg/`
(the pre-existing one survives untouched). -/
theorem C1_counterexample :
    countOccs marker "github>MyOtherOrg/Agithub>MyOrg/Bgithub>MyOrg/Cgithub>MyOrg/".data = 3 ∧
    countOccs replacement
      (ReplaceAll marker replacement
        "github>MyOtherOrg/Agithub>MyOrg/Bgithub>MyOrg/Cgithub>MyOrg/".data) ≠ 3 := by
  decide

/-- C1 (amended): the rewrite performed before publishing replaces every
occurrence of `github>MyOrg/` by `github>MyOtherOrg/` (case-sensitive,
replace-all): no occurrence of the marker survives in the output, and the
number of occurrences of `github>MyOtherOrg/` in the output is the input's
marker count plus the input's pre-existing `github>MyOtherOrg/` count — in
particular an input with exactly three marker occurrences and no pre-existing
occurrence of the replacement yields zero markers and exactly three
replacements. -/
theorem C1_replace_all_exhaustive (s : List Char) :
    countOccs marker (ReplaceAll marker replacement s) = 0 ∧
    countOccs replacement (ReplaceAll marker replacement s) =
      countOccs marker s + countOccs replacement s ∧
    (countOccs marker s = 3 → countOccs replacement s = 0 →
      countOccs replacement (ReplaceAll marker replacement s) = 3) := by
  refine ⟨ReplaceAll_marker_count s, ReplaceAll_replacement_count s, ?_⟩
  intro h3 h0
  rw [ReplaceAll_replacement_count s, h3, h0]

theorem C1_replace_all_exhaustive_witness :
    countOccs marker "a github>MyOrg/x github>MyOrg/y github>MyOrg/z".data = 3 ∧
    countOccs replacement "a github>MyOrg/x github>MyOrg/y github>MyOrg/z".data = 0 ∧
    countOccs replacement
      (ReplaceAll marker replacement
        "a github>MyOrg/x github>MyOrg/y github>MyOrg/z".data) = 3 :=
  ⟨by decide, by decide,
    (C1_replace_all_exhaustive "a github>MyOrg/x github>MyOrg/y github>MyOrg/z".data).2.2
      (by decide) (by decide)⟩

/-! ## Claims about the update workflow -/

/-- C2: when the fetch and decode of `renovate.json` succeed and the decoded
text does not contain `github>MyOrg/`, `CheckAndUpdateRenovateConfig` returns
success having made only the fetch call: `createSignedCommit` and the
pull-request creation API are never invoked. -/
theorem C2_no_marker_noop (env : UpdateEnv) (dryRun : Bool)
    (hfetch : (env.getContents rootPath).errNil = true)
    (hdec : (env.getContents rootPath).decodeOk = true)
    (hno : containsSub marker (env.getContents rootPath).text = false) :
    CheckAndUpdateRenovateConfig env dryRun = (true, [UEvent.fetch rootPath]) ∧
    (∀ content, UEvent.commit content ∉ (CheckAndUpdateRenovateConfig env dryRun).2) ∧
    UEvent.createPR ∉ (CheckAndUpdateRenovateConfig env dryRun).2 := by
  have h : CheckAndUpdateRenovateConfig env dryRun = (true, [UEvent.fetch rootPath]) := by
    simp [CheckAndUpdateRenovateConfig, hfetch, hdec, hno]
  refine ⟨h, ?_, ?_⟩ <;> simp [h]

theorem C2_no_marker_noop_witness :
    CheckAndUpdateRenovateConfig ⟨fun _ => ⟨true, true, "x".data⟩, false, true, true⟩ false =
      (true, [UEvent.fetch rootPath]) ∧
    (∀ content, UEvent.commit content ∉
      (CheckAndUpdateRenovateConfig ⟨fun _ => ⟨true, true, "x".data⟩, false, true, true⟩ false).2) ∧
    UEvent.createPR ∉
      (CheckAndUpdateRenovateConfig ⟨fun _ => ⟨true, true, "x".data⟩, false, true, true⟩ false).2 :=
  C2_no_marker_noop ⟨fun _ => ⟨true, true, "x".data⟩, false, true, true⟩ false
    (by decide) (by decide) (by decide)

/-- C3: when the decoded text does contain `github>MyOrg/` and the dry-run
flag is set, `CheckAndUpdateRenovateConfig` returns success having made only
the fetch call: `createSignedCommit`, the repository-metadata fetch for the
default branch, and the pull-request creation API are never invoked. -/
theorem C3_dry_run_noop (env : UpdateEnv)
    (hfetch : (env.getContents rootPath).errNil = true)
    (hdec : (env.getContents rootPath).decodeOk = true)
    (hyes : containsSub marker (env.getContents rootPath).text = true) :
    CheckAndUpdateRenovateConfig env true = (true, [UEvent.fetch rootPath]) ∧
    (∀ content, UEvent.commit content ∉ (CheckAndUpdateRenovateConfig env true).2) ∧
    UEvent.getRepo ∉ (CheckAndUpdateRenovateConfig env true).2 ∧
    UEvent.createPR ∉ (CheckAndUpdateRenovateConfig env true).2 := by
  have h : CheckAndUpdateRenovateConfig env true = (true, [UEvent.fetch rootPath]) := by
    simp [CheckAndUpdateRenovateConfig, hfetch, hdec, hyes]
  refine ⟨h, ?_, ?_, ?_⟩ <;> simp [h]

theorem C3_dry_run_noop_witness :
    CheckAndUpdateRenovateConfig
      ⟨fun _ => ⟨true, true, "github>MyOrg/x".data⟩, false, true, true⟩ true =
      (true, [UEvent.fetch rootPath]) ∧
    (∀ content, UEvent.commit content ∉
      (CheckAndUpdateRenovateConfig
        ⟨fun _ => ⟨true, true, "github>MyOrg/x".data⟩, false, true, true⟩ true).2) ∧
    UEvent.getRepo ∉
      (CheckAndUpdateRenovateConfig
        ⟨fun _ => ⟨true, true, "github>MyOrg/x".data⟩, false, true, true⟩ true).2 ∧
    UEvent.createPR ∉
      (CheckAndUpdateRenovateConfig
        ⟨fun _ => ⟨true, true, "github>MyOrg/x".data⟩, false, true, true⟩ true).2 :=
  C3_dry_run_noop ⟨fun _ => ⟨true, true, "github>MyOrg/x".data⟩, false, true, true⟩
    (by decide) (by decide) (by decide)

theorem checkAndUpdate_events (env : UpdateEnv) (dryRun : Bool) :
    (CheckAndUpdateRenovateConfig env dryRun).2 = [UEvent.fetch rootPath] ∨
    (CheckAndUpdateRenovateConfig env dryRun).2 =
      [UEvent.fetch rootPath,
        UEvent.commit (ReplaceAll marker replacement (env.getContents rootPath).text)] ∨
    (CheckAndUpdateRenovateConfig env dryRun).2 =
      [UEvent.fetch rootPath,
        UEvent.commit (ReplaceAll marker replacement (env.getContents rootPath).text),
        UEvent.getRepo] ∨
    (CheckAndUpdateRenovateConfig env dryRun).2 =
      [UEvent.fetch rootPath,
        UEvent.commit (ReplaceAll marker replacement (env.getContents rootPath).text),
        UEvent.getRepo, UEvent.createPR] := by
  simp only [CheckAndUpdateRenovateConfig]
  split_ifs <;> simp

/-- C10: the function `CheckAndUpdateRenovateConfig` fetches the config file at the root
path `renovate.json` only — it never fetches `.github/renovate.json` — so for
a repository whose config file exists only at the nested path (so that the
root fetch fails), it returns an error from the fetch step having invoked
neither `createSignedCommit` nor the pull-request creation API. -/
theorem C10_fetches_root_only (env : UpdateEnv) (dryRun : Bool) :
    UEvent.fetch rootPath ∈ (CheckAndUpdateRenovateConfig env dryRun).2 ∧
    UEvent.fetch nestedPath ∉ (CheckAndUpdateRenovateConfig env dryRun).2 ∧
    ((env.getContents rootPath).errNil = false →
      (CheckAndUpdateRenovateConfig env dryRun).1 = false ∧
      CheckAndUpdateRenovateConfig env dryRun = (false, [UEvent.fetch rootPath])) := by
  have hne : nestedPath ≠ rootPath := by decide
  refine ⟨?_, ?_, ?_⟩
  · rcases checkAndUpdate_events env dryRun with h | h | h | h <;> simp [h]
  · rcases checkAndUpdate_events env dryRun with h | h | h | h <;> simp [h, hne]
  · intro herr
    have h : CheckAndUpdateRenovateConfig env dryRun = (false, [UEvent.fetch rootPath]) := by
      simp [CheckAndUpdateRenovateConfig, herr]
    exact ⟨by rw [h], h⟩

theorem C10_fetches_root_only_witness :
    UEvent.fetch rootPath ∈
      (CheckAndUpdateRenovateConfig ⟨fun _ => ⟨false, true, []⟩, false, true, true⟩ false).2 ∧
    UEvent.fetch nestedPath ∉
      (CheckAndUpdateRenovateConfig ⟨fun _ => ⟨false, true, []⟩, false, true, true⟩ false).2 ∧
    ((CheckAndUpdateRenovateConfig ⟨fun _ => ⟨false, true, []⟩, false, true, true⟩ false).1 = false ∧
      CheckAndUpdateRenovateConfig ⟨fun _ => ⟨false, true, []⟩, false, true, true⟩ false =
        (false, [UEvent.fetch rootPath])) :=
  ⟨(C10_fetches_root_only ⟨fun _ => ⟨false, true, []⟩, false, true, true⟩ false).1,
   (C10_fetches_root_only ⟨fun _ => ⟨false, true, []⟩, false, true, true⟩ false).2.1,
   (C10_fetches_root_only ⟨fun _ => ⟨false, true, []⟩, false, true, true⟩ false).2.2 (by decide)⟩

/-! ## Claims about the commit publisher -/

/-- C4: on every `createSignedCommit` call, whichever step fails (or none),
the temporary workspace is removed before returning whenever it was created
(in particular always once `MkdirTemp` succeeded), and when an external git
step (clone, branch, stage, sign-config, commit, push) fails, the returned
error message contains that step's combined output as a suffix. -/
theorem C4_commit_cleanup_and_errors (env : GitEnv) (gpg : List Char) :
    ((createSignedCommit env gpg).dirCreated = true →
      (createSignedCommit env gpg).dirRemoved = true) ∧
    (env.mkdirOk = true →
      (createSignedCommit env gpg).dirCreated = true ∧
      (createSignedCommit env gpg).dirRemoved = true) ∧
    (env.mkdirOk = true → env.clone.ok = false →
      ∃ m, (createSignedCommit env gpg).err = some m ∧ env.clone.output <:+ m) ∧
    (env.mkdirOk = true → env.clone.ok = true → env.branch.ok = false →
      ∃ m, (createSignedCommit env gpg).err = some m ∧ env.branch.output <:+ m) ∧
    (env.mkdirOk = true → env.clone.ok = true → env.branch.ok = true →
      env.writeOk = true → env.add.ok = false →
      ∃ m, (createSignedCommit env gpg).err = some m ∧ env.add.output <:+ m) ∧
    (env.mkdirOk = true → env.clone.ok = true → env.branch.ok = true →
      env.writeOk = true → env.add.ok = true → gpg ≠ [] → env.signcfg.ok = false →
      ∃ m, (createSignedCommit env gpg).err = some m ∧ env.signcfg.output <:+ m) ∧
    (env.mkdirOk = true → env.clone.ok = true → env.branch.ok = true →
      env.writeOk = true → env.add.ok = true → (gpg = [] ∨ env.signcfg.ok = true) →
      env.commit.ok = false →
      ∃ m, (createSignedCommit env gpg).err = some m ∧ env.commit.output <:+ m) ∧
    (env.mkdirOk = true → env.clone.ok = true → env.branch.ok = true →
      env.writeOk = true → env.add.ok = true → (gpg = [] ∨ env.signcfg.ok = true) →
      env.commit.ok = true → env.push.ok = false →
      ∃ m, (createSignedCommit env gpg).err = some m ∧ env.push.output <:+ m) ∧
    (env.mkdirOk = true → env.clone.ok = true → env.branch.ok = true →
      env.writeOk = true → env.add.ok = true → (gpg = [] ∨ env.signcfg.ok = true) →
      env.commit.ok = true → env.push.ok = true →
      (createSignedCommit env gpg).err = none) := by
  refine ⟨?_, ?_, ?_, ?_, ?_, ?_, ?_, ?_, ?_⟩
  · intro h
    unfold createSignedCommit at h ⊢
    split_ifs at h ⊢ <;> simp_all
  · intro h1
    unfold createSignedCommit
    split_ifs <;> simp_all
  · intro h1 h2
    refine ⟨execErrMsg "error cloning repository: ".data env.clone, ?_, ?_⟩
    · simp [createSignedCommit, h1, h2]
    · exact ⟨"error cloning repository: ".data ++ env.clone.errText ++ ", output: ".data,
        by simp [execErrMsg, List.append_assoc]⟩
  · intro h1 h2 h3
    refine ⟨execErrMsg "error creating branch: ".data env.branch, ?_, ?_⟩
    · simp [createSignedCommit, h1, h2, h3]
    · exact ⟨"error creating branch: ".data ++ env.branch.errText ++ ", output: ".data,
        by simp [execErrMsg, List.append_assoc]⟩
  · intro h1 h2 h3 h4 h5
    refine ⟨execErrMsg "error adding file: ".data env.add, ?_, ?_⟩
    · simp [createSignedCommit, h1, h2, h3, h4, h5]
    · exact ⟨"error adding file: ".data ++ env.add.errText ++ ", output: ".data,
        by simp [execErrMsg, List.append_assoc]⟩
  · intro h1 h2 h3 h4 h5 h6 h7
    refine ⟨execErrMsg "error configuring signing key: ".data env.signcfg, ?_, ?_⟩
    · simp [createSignedCommit, h1, h2, h3, h4, h5, h6, h7]
    · exact ⟨"error configuring signing key: ".data ++ env.signcfg.errText ++ ", output: ".data,
        by simp [execErrMsg, List.append_assoc]⟩
  · intro h1 h2 h3 h4 h5 h6 h7
    refine ⟨execErrMsg "error creating commit: ".data env.commit, ?_, ?_⟩
    · rcases h6 with h6 | h6 <;> simp [createSignedCommit, h1, h2, h3, h4, h5, h6, h7]
    · exact ⟨"error creating commit: ".data ++ env.commit.errText ++ ", output: ".data,
        by simp [execErrMsg, List.append_assoc]⟩
  · intro h1 h2 h3 h4 h5 h6 h7 h8
    refine ⟨execErrMsg "error pushing branch: ".data env.push, ?_, ?_⟩
    · rcases h6 with h6 | h6 <;> simp [createSignedCommit, h1, h2, h3, h4, h5, h6, h7, h8]
    · exact ⟨"error pushing branch: ".data ++ env.push.errText ++ ", output: ".data,
        by simp [execErrMsg, List.append_assoc]⟩
  · intro h1 h2 h3 h4 h5 h6 h7 h8
    rcases h6 with h6 | h6 <;> simp [createSignedCommit, h1, h2, h3, h4, h5, h6, h7, h8]

theorem C4_commit_cleanup_and_errors_witness :
    ((createSignedCommit gitEnvCloneFail []).dirCreated = true ∧
      (createSignedCommit gitEnvCloneFail []).dirRemoved = true) ∧
    ∃ m, (createSignedCommit gitEnvCloneFail []).err = some m ∧
      "fatal: could not read from remote".data <:+ m :=
  ⟨(C4_commit_cleanup_and_errors gitEnvCloneFail []).2.1 (by decide),
   (C4_commit_cleanup_and_errors gitEnvCloneFail []).2.2.1 (by decide) (by decide)⟩

/-! ## Claims about the driver -/

/-- C5: in an organization-wide run, every repository in the collected list is
processed and the run completes even when some repositories' updates fail; in
single-repository mode, a failing update makes the run end fatally
(non-zero). -/
theorem C5_error_propagation (env : MainEnv) (htok : env.tokenPresent = true) :
    (∀ repos, env.repoFlag = none → env.findResult = some repos →
      mainRun env = (MainOutcome.completed, repos)) ∧
    (∀ repo, env.repoFlag = some repo → env.getSingleOk = true →
      env.checkOk repo = false → mainRun env = (MainOutcome.fatal, [repo])) := by
  constructor
  · intro repos hflag hfind
    simp [mainRun, htok, hflag, hfind]
  · intro repo hflag hget hcheck
    simp [mainRun, htok, hflag, hget, hcheck]

theorem C5_error_propagation_witness :
    mainRun ⟨true, none, true, some [1, 2, 3], fun r => r != 2⟩ =
      (MainOutcome.completed, [1, 2, 3]) ∧
    mainRun ⟨true, some 5, true, none, fun _ => false⟩ = (MainOutcome.fatal, [5]) :=
  ⟨(C5_error_propagation ⟨true, none, true, some [1, 2, 3], fun r => r != 2⟩ (by decide)).1
      [1, 2, 3] rfl rfl,
   (C5_error_propagation ⟨true, some 5, true, none, fun _ => false⟩ (by decide)).2
      5 rfl rfl rfl⟩

/-! ## Claims about the file probe -/

/-- C6: for every repository the candidate paths are checked in the fixed
order `renovate.json` then `.github/renovate.json`; the probe stops at the
first path whose content check succeeds (the remaining candidate is never
checked), and a repository whose root-path check is a 404 but whose
nested-path check succeeds is recorded as a match. -/
theorem C6_probe_order (oracle : List Char → Nat → ContentsResp) :
    ((oracle rootPath 0).errNil = true →
      probePaths oracle renovatePaths = ([(rootPath, 0)], true)) ∧
    ((oracle rootPath 0).errNil = false → (oracle rootPath 0).respPresent = true →
      (oracle rootPath 0).status = 404 → (oracle nestedPath 0).errNil = true →
      probePaths oracle renovatePaths = ([(rootPath, 0), (nestedPath, 0)], true)) := by
  constructor
  · intro h
    simp [probePaths, renovatePaths, h]
  · intro h1 h2 h3 h4
    simp [probePaths, renovatePaths, h1, h2, h3, h4]

theorem C6_probe_order_witness :
    probePaths (fun _ _ => okResp) renovatePaths = ([(rootPath, 0)], true) ∧
    probePaths oracleNestedOnly renovatePaths = ([(rootPath, 0), (nestedPath, 0)], true) :=
  ⟨(C6_probe_order (fun _ _ => okResp)).1 (by decide),
   (C6_probe_order oracleNestedOnly).2 (by decide) (by decide) (by decide) (by decide)⟩

/-- C7 (counterexample): the claim states that after a rate-limited content
check whose single retry still fails, the repository is skipped.  In the code
the probe merely moves on to the next candidate path: with a root-path check
that is rate-limited and whose retry fails, but a nested path that succeeds,
the repository is recorded as a match (`true`), not skipped. -/
theorem C7_counterexample :
    probePaths oracleRateThenFail renovatePaths =
      ([(rootPath, 0), (rootPath, 1), (nestedPath, 0)], true) := by
  decide

/-- C7 (amended): a rate-limit-exhausted first check of a candidate path (with
a positive wait) causes exactly one retry of the same candidate path; if the
retry succeeds the repository is recorded, and if the retry fails the failure
is logged and probing continues with the next candidate path — the repository
is skipped only if no candidate path succeeds — without aborting the crawl. -/
theorem C7_rate_limit_retry (oracle : List Char → Nat → ContentsResp)
    (h0 : (oracle rootPath 0).errNil = false)
    (hresp : (oracle rootPath 0).respPresent = true)
    (hstat : (oracle rootPath 0).status ≠ 404)
    (hrem : (oracle rootPath 0).remaining = 0)
    (hwait : (oracle rootPath 0).waitPositive = true) :
    ((oracle rootPath 1).errNil = true →
      probePaths oracle renovatePaths = ([(rootPath, 0), (rootPath, 1)], true)) ∧
    ((oracle rootPath 1).errNil = false →
      probePaths oracle renovatePaths =
        ((rootPath, 0) :: (rootPath, 1) :: (probePaths oracle [nestedPath]).1,
         (probePaths oracle [nestedPath]).2)) := by
  constructor <;>
    intro h1 <;>
    simp [probePaths, renovatePaths, h0, hresp, hstat, hrem, hwait, h1]

theorem C7_rate_limit_retry_witness :
    probePaths oracleRateThenFail renovatePaths =
      ((rootPath, 0) :: (rootPath, 1) :: (probePaths oracleRateThenFail [nestedPath]).1,
       (probePaths oracleRateThenFail [nestedPath]).2) :=
  (C7_rate_limit_retry oracleRateThenFail (by decide) (by decide) (by decide) (by decide)
    (by decide)).2 (by decide)

/-! ## Claims about the paginated crawl -/

theorem crawlLoop_failed (probe : Nat → Bool) (r : PageResp) (rest : List PageResp)
    (page : Nat) (acc : List Nat) (herr : r.err = true) :
    crawlLoop probe (r :: rest) page acc = ([page], CrawlEnd.failed) := by
  simp [crawlLoop, herr]

theorem crawlLoop_suspend (probe : Nat → Bool) (r : PageResp) (rest : List PageResp)
    (page : Nat) (acc : List Nat) (herr : r.err = false)
    (hcond : (r.remaining == 0 && r.waitPositive) = true) :
    crawlLoop probe (r :: rest) page acc =
      (page :: (crawlLoop probe rest page acc).1, (crawlLoop probe rest page acc).2) := by
  simp [crawlLoop, herr, hcond]

theorem crawlLoop_lastPage (probe : Nat → Bool) (r : PageResp) (rest : List PageResp)
    (page : Nat) (acc : List Nat) (herr : r.err = false)
    (hcond : (r.remaining == 0 && r.waitPositive) = false)
    (hnp : (r.nextPage == 0) = true) :
    crawlLoop probe (r :: rest) page acc =
      ([page], CrawlEnd.finished (acc ++ r.repos.filter probe)) := by
  simp [crawlLoop, herr, hcond, hnp]

theorem crawlLoop_advance (probe : Nat → Bool) (r : PageResp) (rest : List PageResp)
    (page : Nat) (acc : List Nat) (herr : r.err = false)
    (hcond : (r.remaining == 0 && r.waitPositive) = false)
    (hnp : (r.nextPage == 0) = false) :
    crawlLoop probe (r :: rest) page acc =
      (page :: (crawlLoop probe rest r.nextPage (acc ++ r.repos.filter probe)).1,
       (crawlLoop probe rest r.nextPage (acc ++ r.repos.filter probe)).2) := by
  simp [crawlLoop, herr, hcond, hnp]

/-- C8: a stream of N pages in which only the N-th carries the zero next-page
cursor and none is rate-limit-exhausted makes the crawl perform exactly N
page-list calls and then terminate normally. -/
theorem C8_pagination_terminates (probe : Nat → Bool) :
    ∀ (stream : List PageResp) (page : Nat) (acc : List Nat),
      (∀ r ∈ stream, r.err = false ∧ r.remaining ≠ 0) →
      lastPageOnly stream = true →
      (crawlLoop probe stream page acc).1.length = stream.length ∧
      ∃ res, (crawlLoop probe stream page acc).2 = CrawlEnd.finished res := by
  intro stream
  induction stream with
  | nil =>
    intro page acc _ hlast
    simp [lastPageOnly] at hlast
  | cons r rest ih =>
    intro page acc hok hlast
    obtain ⟨herr, hrem⟩ := hok r (List.mem_cons_self r rest)
    have hremb : (r.remaining == 0) = false := by simp [hrem]
    have hcond : (r.remaining == 0 && r.waitPositive) = false := by simp [hremb]
    cases rest with
    | nil =>
      simp only [lastPageOnly] at hlast
      rw [crawlLoop_lastPage probe r [] page acc herr hcond hlast]
      exact ⟨by simp, ⟨acc ++ r.repos.filter probe, rfl⟩⟩
    | cons s rest2 =>
      simp only [lastPageOnly, Bool.and_eq_true] at hlast
      have hne : r.nextPage ≠ 0 := by simpa using hlast.1
      have hnext : (r.nextPage == 0) = false := by simp [hne]
      have hok2 : ∀ x ∈ s :: rest2, x.err = false ∧ x.remaining ≠ 0 :=
        fun x hx => hok x (List.mem_cons_of_mem r hx)
      obtain ⟨hlen, res, hres⟩ := ih r.nextPage (acc ++ r.repos.filter probe) hok2 hlast.2
      rw [crawlLoop_advance probe r (s :: rest2) page acc herr hcond hnext]
      constructor
      · simpa using hlen
      · exact ⟨res, hres⟩

theorem C8_pagination_terminates_witness :
    (crawlLoop (fun _ => true)
      [⟨false, [1, 2], 10, false, 2⟩, ⟨false, [3], 10, false, 0⟩] 0 []).1.length = 2 ∧
    ∃ res, (crawlLoop (fun _ => true)
      [⟨false, [1, 2], 10, false, 2⟩, ⟨false, [3], 10, false, 0⟩] 0 []).2 =
        CrawlEnd.finished res :=
  C8_pagination_terminates (fun _ => true)
    [⟨false, [1, 2], 10, false, 2⟩, ⟨false, [3], 10, false, 0⟩] 0 [] (by decide) (by decide)

theorem crawl_result_sublist (probe : Nat → Bool) :
    ∀ (stream : List PageResp) (page : Nat) (acc res : List Nat),
      (crawlLoop probe stream page acc).2 = CrawlEnd.finished res →
      res.Sublist (acc ++ pageRepos stream) := by
  intro stream
  induction stream with
  | nil =>
    intro page acc res h
    simp [crawlLoop] at h
  | cons r rest ih =>
    intro page acc res h
    by_cases h1 : r.err = true
    · rw [crawlLoop_failed probe r rest page acc h1] at h
      simp at h
    · have h1f : r.err = false := by
        revert h1
        cases r.err <;> simp
      by_cases h2 : (r.remaining == 0 && r.waitPositive) = true
      · rw [crawlLoop_suspend probe r rest page acc h1f h2] at h
        refine (ih page acc res h).trans ?_
        simp only [pageRepos]
        exact (List.sublist_append_right r.repos (pageRepos rest)).append_left acc
      · have h2f : (r.remaining == 0 && r.waitPositive) = false := by
          revert h2
          cases r.remaining == 0 && r.waitPositive <;> simp
        by_cases h3 : (r.nextPage == 0) = true
        · rw [crawlLoop_lastPage probe r rest page acc h1f h2f h3] at h
          have h4 : CrawlEnd.finished (acc ++ r.repos.filter probe) = CrawlEnd.finished res := h
          injection h4 with h5
          subst h5
          simp only [pageRepos]
          exact ((List.filter_sublist r.repos).trans
            (List.sublist_append_left r.repos (pageRepos rest))).append_left acc
        · have h3f : (r.nextPage == 0) = false := by
            revert h3
            cases r.nextPage == 0 <;> simp
          rw [crawlLoop_advance probe r rest page acc h1f h2f h3f] at h
          refine (ih r.nextPage (acc ++ r.repos.filter probe) res h).trans ?_
          simp only [pageRepos]
          rw [List.append_assoc]
          exact (List.Sublist.append (List.filter_sublist r.repos)
            (List.Sublist.refl (pageRepos rest))).append_left acc

theorem crawl_filter_invariant (probe : Nat → Bool) :
    ∀ (stream : List PageResp) (page : Nat) (acc : List Nat),
      (crawlLoop probe (stream.filter fun r => !rateSuspended r) page acc).2 =
        (crawlLoop probe stream page acc).2 := by
  intro stream
  induction stream with
  | nil => intro page acc; rfl
  | cons r rest ih =>
    intro page acc
    by_cases hsus : rateSuspended r = true
    · have herr : r.err = false := by
        cases hb : r.err
        · rfl
        · simp [rateSuspended, hb] at hsus
      have hcond : (r.remaining == 0 && r.waitPositive) = true := by
        simpa [rateSuspended, herr] using hsus
      rw [List.filter_cons_of_neg (by simp [hsus])]
      rw [crawlLoop_suspend probe r rest page acc herr hcond]
      exact ih page acc
    · have hsusf : rateSuspended r = false := by
        revert hsus
        cases rateSuspended r <;> simp
      rw [List.filter_cons_of_pos (by simp [hsusf])]
      by_cases herr : r.err = true
      · rw [crawlLoop_failed probe r (rest.filter fun x => !rateSuspended x) page acc herr,
          crawlLoop_failed probe r rest page acc herr]
      · have herr2 : r.err = false := by
          revert herr
          cases r.err <;> simp
        have hcondf : (r.remaining == 0 && r.waitPositive) = false := by
          simpa [rateSuspended, herr2] using hsusf
        by_cases hnp : (r.nextPage == 0) = true
        · rw [crawlLoop_lastPage probe r (rest.filter fun x => !rateSuspended x) page acc
            herr2 hcondf hnp, crawlLoop_lastPage probe r rest page acc herr2 hcondf hnp]
        · have hnp2 : (r.nextPage == 0) = false := by
            revert hnp
            cases r.nextPage == 0 <;> simp
          rw [crawlLoop_advance probe r (rest.filter fun x => !rateSuspended x) page acc
            herr2 hcondf hnp2, crawlLoop_advance probe r rest page acc herr2 hcondf hnp2]
          exact ih r.nextPage (acc ++ r.repos.filter probe)

/-- C9: a rate-limit suspension in the page loop re-requests the identical
page cursor without probing the suspended response's repositories (the crawl
continues exactly as if the exhausted response had not occurred), and the
collected result of a finished crawl is a sublist of the pages' repositories,
so it is duplicate-free whenever the pages' repositories (with the initial
accumulator) are. -/
theorem C9_rate_wait_same_page (probe : Nat → Bool) :
    (∀ (r : PageResp) (rest : List PageResp) (page : Nat) (acc : List Nat),
      rateSuspended r = true →
      crawlLoop probe (r :: rest) page acc =
        (page :: (crawlLoop probe rest page acc).1, (crawlLoop probe rest page acc).2)) ∧
    (∀ (stream : List PageResp) (page : Nat) (acc : List Nat),
      (crawlLoop probe (stream.filter fun r => !rateSuspended r) page acc).2 =
        (crawlLoop probe stream page acc).2) ∧
    (∀ (stream : List PageResp) (page : Nat) (acc res : List Nat),
      (crawlLoop probe stream page acc).2 = CrawlEnd.finished res →
      (acc ++ pageRepos stream).Nodup → res.Nodup) := by
  refine ⟨?_, crawl_filter_invariant probe, ?_⟩
  · intro r rest page acc hsus
    have herr : r.err = false := by
      cases hb : r.err
      · rfl
      · simp [rateSuspended, hb] at hsus
    have hcond : (r.remaining == 0 && r.waitPositive) = true := by
      simpa [rateSuspended, herr] using hsus
    exact crawlLoop_suspend probe r rest page acc herr hcond
  · intro stream page acc res h hnd
    exact List.Nodup.sublist (crawl_result_sublist probe stream page acc res h) hnd

theorem C9_rate_wait_same_page_witness :
    crawlLoop (fun _ => true) [⟨false, [7], 0, true, 3⟩, ⟨false, [8], 10, false, 0⟩] 1 [] =
      (1 :: (crawlLoop (fun _ => true) [⟨false, [8], 10, false, 0⟩] 1 []).1,
       (crawlLoop (fun _ => true) [⟨false, [8], 10, false, 0⟩] 1 []).2) ∧
    (crawlLoop (fun _ => true)
      (List.filter (fun r => !rateSuspended r)
        [⟨false, [7], 0, true, 3⟩, ⟨false, [8], 10, false, 0⟩]) 0 []).2 =
      (crawlLoop (fun _ => true) [⟨false, [7], 0, true, 3⟩, ⟨false, [8], 10, false, 0⟩] 0 []).2 ∧
    ([8] : List Nat).Nodup :=
  ⟨(C9_rate_wait_same_page (fun _ => true)).1 ⟨false, [7], 0, true, 3⟩
      [⟨false, [8], 10, false, 0⟩] 1 [] (by decide),
   (C9_rate_wait_same_page (fun _ => true)).2.1
      [⟨false, [7], 0, true, 3⟩, ⟨false, [8], 10, false, 0⟩] 0 [],
   (C9_rate_wait_same_page (fun _ => true)).2.2 [⟨false, [8], 10, false, 0⟩] 0 [] [8]
      (by decide) (by decide)⟩
